import Mathlib

/-!
Verification of the ASCII video-background pipeline of `src/video.rs` from the
repository `animated-cli-chatgpt-grok-gemini-claude`.

The Rust source is shallowly embedded: pure pixel math becomes Lean functions
(f32 arithmetic is modelled as exact rational arithmetic; the saturating
`as u8` cast becomes `f32_as_u8`), the crossbeam channel becomes an explicit
FIFO list, the ratatui buffer becomes a record of an area and a cell map, and
the decode worker thread becomes an explicit event-trace machine driven by an
abstract media environment.
-/

namespace VideoRs

/-! ## AsciiMapper: palette, luminance and character selection (video.rs 15-34) -/

/-- ASCII palette from light to dark, byte-for-byte the `PALETTE` constant of
`video.rs` line 16 (69 characters). -/
def PALETTE_STR : String := " .'`^\",:;Il!i><~+_-?][\x7d\x7b1)(|\\tfjrxnuvczXYUJCLQ0OZmwqpdbkhao*#MW&8%B@$"

def PALETTE : List Char := PALETTE_STR.toList

/-- Rust's saturating `f32 as u8` cast: truncate toward zero, clamp to `[0, 255]`.
For the nonnegative values arising here this is `min ⌊q⌋ 255`. -/
def f32_as_u8 (q : ℚ) : Nat := min (⌊q⌋).toNat 255

/-- Embeds `luminance` (video.rs 25-28): `(0.299*r + 0.587*g + 0.114*b) as u8`.
The f32 arithmetic is modelled as exact rational arithmetic. -/
def luminance (r g b : Nat) : Nat :=
  f32_as_u8 (299/1000 * (r : ℚ) + 587/1000 * (g : ℚ) + 114/1000 * (b : ℚ))

/-- Embeds the index computation of `ascii_for` (video.rs 32):
`(y * (PALETTE.len() - 1)) / 255`. -/
def palIdx (y : Nat) : Nat := y * (PALETTE.length - 1) / 255

/-- Character selected for a luminance value: `PALETTE[idx]` (video.rs 33). -/
def charForLum (y : Nat) : Char := PALETTE.getD (palIdx y) ' '

/-- Embeds `ascii_for` (video.rs 30-34). -/
def ascii_for (r g b : Nat) : Char := charForLum (luminance r g b)

/-- Modelled from the spec words of §4.3 for comparison with the code: the spec
computes luminance with `round` where the code truncates. -/
def luminance_spec (r g b : Nat) : Nat :=
  (round (299/1000 * (r : ℚ) + 587/1000 * (g : ℚ) + 114/1000 * (b : ℚ))).toNat

/-- Modelled from the spec words of §4.3: `palette[floor(round_y * (P-1) / 255)]`. -/
def ascii_for_spec (r g b : Nat) : Char :=
  PALETTE.getD (palIdx (luminance_spec r g b)) ' '

lemma lum_sum_cast (r g b : Nat) :
    299/1000 * (r : ℚ) + 587/1000 * (g : ℚ) + 114/1000 * (b : ℚ) =
      ((299 * r + 587 * g + 114 * b : ℕ) : ℚ) / ((1000 : ℕ) : ℚ) := by
  push_cast
  ring

/-- The truncated rational luminance is Nat division by 1000 (with the `as u8`
saturation). -/
lemma luminance_eq (r g b : Nat) :
    luminance r g b = min ((299 * r + 587 * g + 114 * b) / 1000) 255 := by
  unfold luminance f32_as_u8
  rw [Int.floor_toNat, lum_sum_cast, Nat.floor_div_eq_div]

/-- The spec's rounded luminance is `(2*s + 1000) / 2000` on naturals. -/
lemma luminance_spec_eq (r g b : Nat) :
    luminance_spec r g b = (2 * (299 * r + 587 * g + 114 * b) + 1000) / 2000 := by
  unfold luminance_spec
  rw [round_eq, Int.floor_toNat, lum_sum_cast]
  have h2 : ((299 * r + 587 * g + 114 * b : ℕ) : ℚ) / ((1000 : ℕ) : ℚ) + 1/2 =
      ((2 * (299 * r + 587 * g + 114 * b) + 1000 : ℕ) : ℚ) / ((2000 : ℕ) : ℚ) := by
    push_cast
    ring
  rw [h2, Nat.floor_div_eq_div]

lemma lum_sum_le (r g b : Nat) (hr : r ≤ 255) (hg : g ≤ 255) (hb : b ≤ 255) :
    299 * r + 587 * g + 114 * b ≤ 255000 := by
  have h1 : 299 * r ≤ 299 * 255 := Nat.mul_le_mul_left 299 hr
  have h2 : 587 * g ≤ 587 * 255 := Nat.mul_le_mul_left 587 hg
  have h3 : 114 * b ≤ 114 * 255 := Nat.mul_le_mul_left 114 hb
  omega

/-- C3 counterexample: at pixel `(0, 6, 2)` the exact luminance is `3.75`; the
code truncates it to `3` and emits `palette[0] = ' '`, while the claimed
rounding gives `4`, index `1`, character `'.'`. -/
theorem C3_counterexample :
    luminance 0 6 2 = 3 ∧ luminance_spec 0 6 2 = 4 ∧
    ascii_for 0 6 2 = ' ' ∧ ascii_for_spec 0 6 2 = '.' ∧
    ascii_for 0 6 2 ≠ ascii_for_spec 0 6 2 := by
  have h1 : luminance 0 6 2 = 3 := by rw [luminance_eq]; decide
  have h2 : luminance_spec 0 6 2 = 4 := by rw [luminance_spec_eq]
  refine ⟨h1, h2, ?_, ?_, ?_⟩
  · rw [ascii_for, h1]; decide
  · rw [ascii_for_spec, h2]; decide
  · rw [ascii_for, ascii_for_spec, h1, h2]; decide

/-- C3 (amended): for u8 pixels the mapper computes the luminance by
truncating (not rounding) `0.299*r + 0.587*g + 0.114*b`, which equals the
natural-number division `(299r + 587g + 114b) / 1000`, lies in `0..255`, and
the emitted character is `palette[floor(y * (P-1) / 255)]` with the index
always in range; the mapping is a function of `(r, g, b)` alone. -/
theorem C3_ascii_mapping (r g b : Nat) (hr : r ≤ 255) (hg : g ≤ 255) (hb : b ≤ 255) :
    luminance r g b = (299 * r + 587 * g + 114 * b) / 1000 ∧
    luminance r g b ≤ 255 ∧
    ascii_for r g b = PALETTE.getD (luminance r g b * (PALETTE.length - 1) / 255) ' ' ∧
    luminance r g b * (PALETTE.length - 1) / 255 < PALETTE.length := by
  have hdiv : (299 * r + 587 * g + 114 * b) / 1000 ≤ 255 := by
    have := lum_sum_le r g b hr hg hb
    omega
  have h1 : luminance r g b = (299 * r + 587 * g + 114 * b) / 1000 := by
    rw [luminance_eq]
    exact min_eq_left hdiv
  refine ⟨h1, h1 ▸ hdiv, rfl, ?_⟩
  have hy : luminance r g b ≤ 255 := h1 ▸ hdiv
  have hlen : PALETTE.length = 69 := by decide
  rw [hlen]
  have : luminance r g b * (69 - 1) ≤ 255 * 68 := by
    have := Nat.mul_le_mul_right 68 hy
    omega
  omega

/-- Witness for C3_ascii_mapping at the concrete pixel `(0, 6, 2)`. -/
theorem C3_witness :
    (0:Nat) ≤ 255 ∧ luminance 0 6 2 = (299 * 0 + 587 * 6 + 114 * 2) / 1000 :=
  ⟨by decide, (C3_ascii_mapping 0 6 2 (by decide) (by decide) (by decide)).1⟩

/-- C4 (confirmed): the character selection is a pure function of the
luminance; luminance 0 yields `palette[0] = ' '`, luminance 255 yields
`palette[P-1] = '$'`, and the selected index is monotone non-decreasing in
the luminance. -/
theorem C4_char_selection :
    charForLum 0 = ' ' ∧ PALETTE.getD 0 ' ' = ' ' ∧
    charForLum 255 = '$' ∧ PALETTE.getD (PALETTE.length - 1) ' ' = '$' ∧
    palIdx 0 = 0 ∧ palIdx 255 = PALETTE.length - 1 ∧
    ∀ y1 y2 : Nat, y1 ≤ y2 → palIdx y1 ≤ palIdx y2 := by
  refine ⟨by decide, by decide, by decide, by decide, by decide, by decide, ?_⟩
  intro y1 y2 h
  exact Nat.div_le_div_right (Nat.mul_le_mul_right _ h)

/-- Witness for C4_char_selection, instantiating the monotonicity conjunct at
`100 ≤ 200`. -/
theorem C4_witness : (100:Nat) ≤ 200 ∧ palIdx 100 ≤ palIdx 200 :=
  ⟨by decide, C4_char_selection.2.2.2.2.2.2 100 200 (by decide)⟩

/-! ## AsciiFrame and `to_ascii_frame` (video.rs 18-23, 36-58) -/

/-- One packed cell `(ch, r, g, b)` of an `AsciiFrame` (video.rs 22). -/
structure RGBCell where
  ch : Char
  r : Nat
  g : Nat
  b : Nat
deriving DecidableEq

/-- Embeds `AsciiFrame` (video.rs 18-23); `w`/`h` are u16 in the source. -/
structure AsciiFrame where
  w : Nat
  h : Nat
  cells : List RGBCell
deriving DecidableEq

/-- Cell built for one pixel (video.rs 47-49). -/
def mkCell (r g b : Nat) : RGBCell := ⟨ascii_for r g b, r, g, b⟩

/-- One row of the conversion loop (video.rs 43-51): pixel `x` reads bytes
`y*stride + 3x .. y*stride + 3x + 2` of the raster. -/
def frameRow (stride : Nat) (data : Nat → Nat) (y w : Nat) : List RGBCell :=
  (List.range w).map fun x =>
    mkCell (data (y * stride + x * 3)) (data (y * stride + x * 3 + 1))
      (data (y * stride + x * 3 + 2))

/-- Embeds `to_ascii_frame` (video.rs 36-58). The decoded RGB raster is given
by its dimensions, its row stride in bytes, and its byte contents as a
function from byte index to byte value. -/
def to_ascii_frame (w h stride : Nat) (data : Nat → Nat) : AsciiFrame :=
  { w := w, h := h,
    cells := ((List.range h).map fun y => frameRow stride data y w).flatten }

lemma frameRow_length (stride : Nat) (data : Nat → Nat) (y w : Nat) :
    (frameRow stride data y w).length = w := by
  simp [frameRow]

lemma frameRow_get (stride : Nat) (data : Nat → Nat) (y w x : Nat) (hx : x < w) :
    (frameRow stride data y w)[x]? =
      some (mkCell (data (y * stride + x * 3)) (data (y * stride + x * 3 + 1))
        (data (y * stride + x * 3 + 2))) := by
  simp [frameRow, List.getElem?_range, hx]

lemma flatten_rows_length {α : Type} (f : Nat → List α) (w : Nat)
    (hw : ∀ y, (f y).length = w) :
    ∀ h, (((List.range h).map f).flatten).length = h * w := by
  intro h
  induction h with
  | zero => simp
  | succ n ih =>
    rw [List.range_succ, List.map_append, List.flatten_append, List.length_append, ih]
    simp [hw, Nat.succ_mul]

lemma flatten_rows_get {α : Type} (f : Nat → List α) (w : Nat)
    (hw : ∀ y, (f y).length = w) :
    ∀ (h y x : Nat), y < h → x < w →
      (((List.range h).map f).flatten)[y * w + x]? = (f y)[x]? := by
  intro h
  induction h with
  | zero => intro y x hy _; omega
  | succ n ih =>
    intro y x hy hx
    rw [List.range_succ, List.map_append, List.flatten_append]
    by_cases hyn : y < n
    · rw [List.getElem?_append_left]
      · exact ih y x hyn hx
      · rw [flatten_rows_length f w hw n]
        have hmul : (y + 1) * w ≤ n * w :=
          Nat.mul_le_mul_right w (by omega : y + 1 ≤ n)
        have hsm : (y + 1) * w = y * w + w := Nat.succ_mul y w
        omega
    · obtain rfl : n = y := by omega
      rw [List.getElem?_append_right]
      · rw [flatten_rows_length f w hw n]
        simp [Nat.add_sub_cancel_left]
      · rw [flatten_rows_length f w hw n]
        omega

lemma to_ascii_frame_length (w h stride : Nat) (data : Nat → Nat) :
    (to_ascii_frame w h stride data).cells.length = w * h := by
  unfold to_ascii_frame
  rw [flatten_rows_length _ w (fun y => frameRow_length stride data y w) h,
    Nat.mul_comm]

lemma to_ascii_frame_get (w h stride : Nat) (data : Nat → Nat) (x y : Nat)
    (hx : x < w) (hy : y < h) :
    (to_ascii_frame w h stride data).cells[y * w + x]? =
      some (mkCell (data (y * stride + x * 3)) (data (y * stride + x * 3 + 1))
        (data (y * stride + x * 3 + 2))) := by
  unfold to_ascii_frame
  rw [flatten_rows_get _ w (fun y => frameRow_length stride data y w) h y x hy hx,
    frameRow_get stride data y w x hx]

/-- C5 (confirmed): every frame produced by the conversion satisfies
`cells.length = width * height`, and the cells are in row-major order: the
cell at index `y*w + x` is built from raster bytes `y*stride + 3x ..`, for
every raster with stride at least `3*width`. -/
theorem C5_frame_invariant (w h stride : Nat) (data : Nat → Nat)
    (_hs : 3 * w ≤ stride) :
    (to_ascii_frame w h stride data).cells.length = w * h ∧
    ∀ x y, x < w → y < h →
      (to_ascii_frame w h stride data).cells[y * w + x]? =
        some (mkCell (data (y * stride + x * 3)) (data (y * stride + x * 3 + 1))
          (data (y * stride + x * 3 + 2))) :=
  ⟨to_ascii_frame_length w h stride data,
   fun x y hx hy => to_ascii_frame_get w h stride data x y hx hy⟩

/-- Witness for C5_frame_invariant on a concrete 2-by-2 raster. -/
theorem C5_witness :
    3 * 2 ≤ 6 ∧ (to_ascii_frame 2 2 6 fun i => i).cells.length = 2 * 2 :=
  ⟨by decide, (C5_frame_invariant 2 2 6 (fun i => i) (by decide)).1⟩

/-! ## Compositor: `VideoBackground`, `update`, `render_background`
(video.rs 153-210). The ratatui buffer is modelled as a drawing area plus a
map from absolute coordinates to cells; `cell_mut` succeeds exactly on
coordinates inside the area. The crossbeam receiver is modelled as a FIFO
list of frames threaded explicitly through `update`. -/

/-- Terminal colors, as far as this code touches them (`Color::Rgb`). -/
inductive RColor
  | reset
  | rgb (r g b : Nat)
deriving DecidableEq

/-- One terminal cell: `set_char` touches `ch`, `set_fg` touches `fg`; the
background color stands for every other cell attribute. -/
structure BufCell where
  ch : Char
  fg : RColor
  bg : RColor
deriving DecidableEq

/-- A ratatui `Rect`. -/
structure Rect where
  x : Nat
  y : Nat
  width : Nat
  height : Nat
deriving DecidableEq

/-- Containment test used by ratatui's `Buffer::cell_mut`. -/
def Rect.containsB (a : Rect) (px py : Nat) : Bool :=
  decide (a.x ≤ px ∧ px < a.x + a.width ∧ a.y ≤ py ∧ py < a.y + a.height)

/-- A ratatui `Buffer`: its area and the cell at each absolute coordinate. -/
structure Buffer where
  area : Rect
  cellAt : Nat → Nat → BufCell

/-- `buf.cell_mut((px, py))` followed by a cell update: outside the area the
lookup yields `None` and nothing happens. -/
def Buffer.setCell (buf : Buffer) (px py : Nat) (f : BufCell → BufCell) : Buffer :=
  if buf.area.containsB px py then
    { buf with
      cellAt := fun a b =>
        if a = px ∧ b = py then f (buf.cellAt a b) else buf.cellAt a b }
  else buf

/-- Embeds `VideoBackground` (video.rs 153-157); the receiver handle is kept
outside the structure as the explicit frame queue. -/
structure VideoBackground where
  latest : Option AsciiFrame
  opacity : ℚ

/-- Crossbeam `try_recv` on the FIFO queue: `Ok(head)` or `Err(Empty)`. -/
def tryRecv (q : List AsciiFrame) : Option AsciiFrame × List AsciiFrame :=
  match q with
  | [] => (none, [])
  | af :: rest => (some af, rest)

/-- Embeds `VideoBackground::update` (video.rs 173-178): one non-blocking
receive; on success the retained frame is replaced. -/
def VideoBackground.update (vb : VideoBackground) (q : List AsciiFrame) :
    VideoBackground × List AsciiFrame :=
  match tryRecv q with
  | (some af, rest) => ({ vb with latest := some af }, rest)
  | (none, rest) => (vb, rest)

/-- Iterated `update`, for the any-number-of-calls part of the claim. -/
def updateIter : Nat → VideoBackground × List AsciiFrame →
    VideoBackground × List AsciiFrame
  | 0, s => s
  | n + 1, s => updateIter n (VideoBackground.update s.1 s.2)

/-- C8 (confirmed): `update` performs exactly one non-blocking receive: on an
empty queue it changes nothing (any number of calls included), and when a
frame is pending the retained frame is replaced wholesale by the head of the
queue, which is consumed. -/
theorem C8_update_once (vb : VideoBackground) (q : List AsciiFrame)
    (af : AsciiFrame) :
    VideoBackground.update vb [] = (vb, []) ∧
    (∀ n, updateIter n (vb, []) = (vb, [])) ∧
    VideoBackground.update vb (af :: q) = ({ vb with latest := some af }, q) := by
  refine ⟨rfl, ?_, rfl⟩
  intro n
  induction n with
  | zero => rfl
  | succ m ih => simpa [updateIter, VideoBackground.update, tryRecv] using ih

/-- Opacity dimming of one channel (video.rs 198-200):
`(c as f32 * opacity) as u8`, with f32 modelled as exact rationals. -/
def dimChannel (o : ℚ) (c : Nat) : Nat := f32_as_u8 ((c : ℚ) * o)

/-- The write performed on a drawn cell (video.rs 203-204): `set_char` then
`set_fg` with the dimmed color; everything else is preserved. -/
def drawnCell (o : ℚ) (c : RGBCell) (old : BufCell) : BufCell :=
  { old with ch := c.ch, fg := RColor.rgb (dimChannel o c.r) (dimChannel o c.g) (dimChannel o c.b) }

/-- Width of the drawn region (video.rs 183). -/
def contentW (af : AsciiFrame) (area : Rect) : Nat := min af.w area.width

/-- Height of the drawn region (video.rs 184). -/
def contentH (af : AsciiFrame) (area : Rect) : Nat := min af.h area.height

/-- Horizontal centering offset (video.rs 186). -/
def offX (af : AsciiFrame) (area : Rect) : Nat :=
  area.x + (area.width - contentW af area) / 2

/-- Vertical centering offset (video.rs 187). -/
def offY (af : AsciiFrame) (area : Rect) : Nat :=
  area.y + (area.height - contentH af area) / 2

/-- Body of the inner drawing loop (video.rs 190-206): index into the frame,
skip if out of bounds, otherwise write the cell. -/
def drawStep (o : ℚ) (af : AsciiFrame) (x0 y0 y : Nat) (b : Buffer) (x : Nat) :
    Buffer :=
  let i := y * af.w + x
  if i < af.cells.length then
    b.setCell (x0 + x) (y0 + y) (drawnCell o (af.cells.getD i ⟨' ', 0, 0, 0⟩))
  else b

/-- Embeds `VideoBackground::render_background` (video.rs 181-209). -/
def render_background (vb : VideoBackground) (buf : Buffer) (area : Rect) :
    Buffer :=
  match vb.latest with
  | none => buf
  | some af =>
    (List.range (contentH af area)).foldl
      (fun b y =>
        (List.range (contentW af area)).foldl
          (drawStep vb.opacity af (offX af area) (offY af area) y) b)
      buf

/-! ### Characterization of the drawing loops -/

lemma setCell_area (buf : Buffer) (px py : Nat) (f : BufCell → BufCell) :
    (buf.setCell px py f).area = buf.area := by
  unfold Buffer.setCell
  split <;> rfl

lemma setCell_cellAt_ne (buf : Buffer) (px py a b : Nat) (f : BufCell → BufCell)
    (hne : ¬(a = px ∧ b = py)) :
    (buf.setCell px py f).cellAt a b = buf.cellAt a b := by
  unfold Buffer.setCell
  split
  · simp only [if_neg hne]
  · rfl

lemma setCell_cellAt_eq (buf : Buffer) (px py : Nat) (f : BufCell → BufCell)
    (hin : buf.area.containsB px py = true) :
    (buf.setCell px py f).cellAt px py = f (buf.cellAt px py) := by
  unfold Buffer.setCell
  rw [if_pos hin]
  simp

lemma drawStep_area (o : ℚ) (af : AsciiFrame) (x0 y0 y : Nat) (b : Buffer)
    (x : Nat) : (drawStep o af x0 y0 y b x).area = b.area := by
  simp only [drawStep]
  split
  · exact setCell_area _ _ _ _
  · rfl

lemma drawStep_cellAt_ne (o : ℚ) (af : AsciiFrame) (x0 y0 y : Nat) (b : Buffer)
    (x px py : Nat) (hne : ¬(px = x0 + x ∧ py = y0 + y)) :
    (drawStep o af x0 y0 y b x).cellAt px py = b.cellAt px py := by
  simp only [drawStep]
  split
  · exact setCell_cellAt_ne _ _ _ _ _ _ hne
  · rfl

lemma drawStep_cellAt_eq (o : ℚ) (af : AsciiFrame) (x0 y0 y : Nat) (b : Buffer)
    (x : Nat) (hi : y * af.w + x < af.cells.length)
    (hin : b.area.containsB (x0 + x) (y0 + y) = true) :
    (drawStep o af x0 y0 y b x).cellAt (x0 + x) (y0 + y) =
      drawnCell o (af.cells.getD (y * af.w + x) ⟨' ', 0, 0, 0⟩)
        (b.cellAt (x0 + x) (y0 + y)) := by
  simp only [drawStep]
  rw [if_pos hi]
  exact setCell_cellAt_eq _ _ _ _ hin

lemma drawStep_bg (o : ℚ) (af : AsciiFrame) (x0 y0 y : Nat) (b : Buffer)
    (x px py : Nat) :
    ((drawStep o af x0 y0 y b x).cellAt px py).bg = (b.cellAt px py).bg := by
  simp only [drawStep]
  split
  · unfold Buffer.setCell
    split
    · simp only
      split
      · rfl
      · rfl
    · rfl
  · rfl

lemma foldl_area_preserved {β : Type} (f : Buffer → β → Buffer)
    (hf : ∀ b e, (f b e).area = b.area) :
    ∀ (l : List β) (b : Buffer), (l.foldl f b).area = b.area := by
  intro l
  induction l with
  | nil => intro b; rfl
  | cons e rest ih => intro b; rw [List.foldl_cons, ih, hf]

lemma foldl_bg_preserved {β : Type} (f : Buffer → β → Buffer)
    (hf : ∀ b e px py, ((f b e).cellAt px py).bg = (b.cellAt px py).bg) :
    ∀ (l : List β) (b : Buffer) (px py : Nat),
      ((l.foldl f b).cellAt px py).bg = (b.cellAt px py).bg := by
  intro l
  induction l with
  | nil => intro b px py; rfl
  | cons e rest ih => intro b px py; rw [List.foldl_cons, ih, hf]

lemma innerFold_cellAt_ne (o : ℚ) (af : AsciiFrame) (x0 y0 y px py : Nat) :
    ∀ (n : Nat) (b : Buffer),
      (∀ x, x < n → ¬(px = x0 + x ∧ py = y0 + y)) →
      ((List.range n).foldl (drawStep o af x0 y0 y) b).cellAt px py =
        b.cellAt px py := by
  intro n
  induction n with
  | zero => intro b _; rfl
  | succ m ih =>
    intro b h
    rw [List.range_succ, List.foldl_append, List.foldl_cons, List.foldl_nil,
      drawStep_cellAt_ne _ _ _ _ _ _ _ _ _ (h m (Nat.lt_succ_self m))]
    exact ih b fun x hx => h x (Nat.lt_succ_of_lt hx)

lemma innerFold_cellAt_eq (o : ℚ) (af : AsciiFrame) (x0 y0 y x : Nat) :
    ∀ (n : Nat) (b : Buffer), x < n → y * af.w + x < af.cells.length →
      b.area.containsB (x0 + x) (y0 + y) = true →
      ((List.range n).foldl (drawStep o af x0 y0 y) b).cellAt (x0 + x) (y0 + y) =
        drawnCell o (af.cells.getD (y * af.w + x) ⟨' ', 0, 0, 0⟩)
          (b.cellAt (x0 + x) (y0 + y)) := by
  intro n
  induction n with
  | zero => intro b hx; omega
  | succ m ih =>
    intro b hx hi hin
    rw [List.range_succ, List.foldl_append, List.foldl_cons, List.foldl_nil]
    by_cases hxm : x = m
    · subst hxm
      have hprev : ((List.range x).foldl (drawStep o af x0 y0 y) b).cellAt
          (x0 + x) (y0 + y) = b.cellAt (x0 + x) (y0 + y) :=
        innerFold_cellAt_ne o af x0 y0 y _ _ x b (by intro x' hx' hc; omega)
      have harea : ((List.range x).foldl (drawStep o af x0 y0 y) b).area =
          b.area :=
        foldl_area_preserved _ (fun b' x' => drawStep_area o af x0 y0 y b' x') _ b
      rw [drawStep_cellAt_eq o af x0 y0 y _ x hi (by rw [harea]; exact hin), hprev]
    · have hxm' : x < m := by omega
      rw [drawStep_cellAt_ne o af x0 y0 y _ m _ _ (by intro hc; omega)]
      exact ih b hxm' hi hin

lemma outerFold_cellAt_ne (o : ℚ) (af : AsciiFrame) (x0 y0 W px py : Nat) :
    ∀ (n : Nat) (b : Buffer),
      (∀ y x, y < n → x < W → ¬(px = x0 + x ∧ py = y0 + y)) →
      ((List.range n).foldl
          (fun b y => (List.range W).foldl (drawStep o af x0 y0 y) b) b).cellAt
        px py = b.cellAt px py := by
  intro n
  induction n with
  | zero => intro b _; rfl
  | succ m ih =>
    intro b h
    rw [List.range_succ, List.foldl_append, List.foldl_cons, List.foldl_nil,
      innerFold_cellAt_ne o af x0 y0 m px py W _
        (fun x hx => h m x (Nat.lt_succ_self m) hx)]
    exact ih b fun y x hy hx => h y x (Nat.lt_succ_of_lt hy) hx

lemma outerFold_cellAt_eq (o : ℚ) (af : AsciiFrame) (x0 y0 W x y : Nat) :
    ∀ (n : Nat) (b : Buffer), y < n → x < W →
      y * af.w + x < af.cells.length →
      b.area.containsB (x0 + x) (y0 + y) = true →
      ((List.range n).foldl
          (fun b y => (List.range W).foldl (drawStep o af x0 y0 y) b) b).cellAt
        (x0 + x) (y0 + y) =
        drawnCell o (af.cells.getD (y * af.w + x) ⟨' ', 0, 0, 0⟩)
          (b.cellAt (x0 + x) (y0 + y)) := by
  intro n
  induction n with
  | zero => intro b hy; omega
  | succ m ih =>
    intro b hy hx hi hin
    rw [List.range_succ, List.foldl_append, List.foldl_cons, List.foldl_nil]
    by_cases hym : y = m
    · subst hym
      have hprev : ((List.range y).foldl
          (fun b y' => (List.range W).foldl (drawStep o af x0 y0 y') b) b).cellAt
          (x0 + x) (y0 + y) = b.cellAt (x0 + x) (y0 + y) :=
        outerFold_cellAt_ne o af x0 y0 W _ _ y b (by intro y' x' hy' _ hc; omega)
      have harea : ((List.range y).foldl
          (fun b y' => (List.range W).foldl (drawStep o af x0 y0 y') b) b).area =
          b.area :=
        foldl_area_preserved _
          (fun b' y' => foldl_area_preserved _
            (fun b'' x' => drawStep_area o af x0 y0 y' b'' x') _ b') _ b
      rw [innerFold_cellAt_eq o af x0 y0 y x W _ hx hi (by rw [harea]; exact hin),
        hprev]
    · have hym' : y < m := by omega
      rw [innerFold_cellAt_ne o af x0 y0 m (x0 + x) (y0 + y) W _
        (by intro x' hx' hc; omega)]
      exact ih b hym' hx hi hin

lemma render_background_none (vb : VideoBackground) (buf : Buffer) (area : Rect)
    (h : vb.latest = none) : render_background vb buf area = buf := by
  unfold render_background
  rw [h]

lemma render_background_some (vb : VideoBackground) (buf : Buffer) (area : Rect)
    (af : AsciiFrame) (h : vb.latest = some af) :
    render_background vb buf area =
      (List.range (contentH af area)).foldl
        (fun b y =>
          (List.range (contentW af area)).foldl
            (drawStep vb.opacity af (offX af area) (offY af area) y) b)
        buf := by
  unfold render_background
  rw [h]

lemma render_cellAt_in (vb : VideoBackground) (buf : Buffer) (area : Rect)
    (af : AsciiFrame) (x y : Nat) (hl : vb.latest = some af)
    (hx : x < contentW af area) (hy : y < contentH af area)
    (hi : y * af.w + x < af.cells.length)
    (hin : buf.area.containsB (offX af area + x) (offY af area + y) = true) :
    (render_background vb buf area).cellAt (offX af area + x) (offY af area + y) =
      drawnCell vb.opacity (af.cells.getD (y * af.w + x) ⟨' ', 0, 0, 0⟩)
        (buf.cellAt (offX af area + x) (offY af area + y)) := by
  rw [render_background_some vb buf area af hl]
  exact outerFold_cellAt_eq vb.opacity af (offX af area) (offY af area)
    (contentW af area) x y (contentH af area) buf hy hx hi hin

lemma render_cellAt_out (vb : VideoBackground) (buf : Buffer) (area : Rect)
    (af : AsciiFrame) (px py : Nat) (hl : vb.latest = some af)
    (hout : ¬(offX af area ≤ px ∧ px < offX af area + contentW af area ∧
      offY af area ≤ py ∧ py < offY af area + contentH af area)) :
    (render_background vb buf area).cellAt px py = buf.cellAt px py := by
  rw [render_background_some vb buf area af hl]
  apply outerFold_cellAt_ne
  intro y x hy hx hc
  exact hout (by omega)

/-- C6 (confirmed): rendering uses `content_w = min(frame.w, area.width)`,
`content_h = min(frame.h, area.height)`, centering offsets
`x0 = area.x + (area.width - content_w)/2` (and the analogue for y), which
give `x0 = y0 = 3` for a 10-by-10 area and a 4-by-4 frame; for a frame
satisfying the length invariant every index computed into the frame cells is
in bounds, and each drawn position takes exactly the top-left
`content_w`-by-`content_h` cell `y*frame.w + x` of the frame; buffer writes
go through the checked cell lookup, so coordinates outside the buffer area
change nothing. -/
theorem C6_render_geometry (vb : VideoBackground) (af : AsciiFrame)
    (buf : Buffer) (area : Rect) (hl : vb.latest = some af)
    (hinv : af.cells.length = af.w * af.h) :
    contentW af area = min af.w area.width ∧
    contentH af area = min af.h area.height ∧
    offX af area = area.x + (area.width - contentW af area) / 2 ∧
    offY af area = area.y + (area.height - contentH af area) / 2 ∧
    offX ⟨4, 4, []⟩ ⟨0, 0, 10, 10⟩ = 3 ∧ offY ⟨4, 4, []⟩ ⟨0, 0, 10, 10⟩ = 3 ∧
    (∀ x y, x < contentW af area → y < contentH af area →
      y * af.w + x < af.cells.length ∧
      (buf.area.containsB (offX af area + x) (offY af area + y) = true →
        (render_background vb buf area).cellAt (offX af area + x)
            (offY af area + y) =
          drawnCell vb.opacity (af.cells.getD (y * af.w + x) ⟨' ', 0, 0, 0⟩)
            (buf.cellAt (offX af area + x) (offY af area + y)))) := by
  refine ⟨rfl, rfl, rfl, rfl, by decide, by decide, ?_⟩
  intro x y hx hy
  have hxw : x < af.w := lt_of_lt_of_le hx (min_le_left _ _)
  have hyh : y < af.h := lt_of_lt_of_le hy (min_le_left _ _)
  have hi : y * af.w + x < af.cells.length := by
    have h1 : (y + 1) * af.w = y * af.w + af.w := Nat.succ_mul y af.w
    have h2 : (y + 1) * af.w ≤ af.h * af.w :=
      Nat.mul_le_mul_right _ (Nat.succ_le_of_lt hyh)
    have h3 : af.w * af.h = af.h * af.w := Nat.mul_comm _ _
    rw [hinv]
    omega
  exact ⟨hi, fun hin => render_cellAt_in vb buf area af x y hl hx hy hi hin⟩

/-- Witness for C6_render_geometry, projecting the concrete centering
instance. -/
theorem C6_witness :
    (⟨1, 1, [⟨'@', 255, 0, 0⟩]⟩ : AsciiFrame).cells.length =
      (⟨1, 1, [⟨'@', 255, 0, 0⟩]⟩ : AsciiFrame).w *
        (⟨1, 1, [⟨'@', 255, 0, 0⟩]⟩ : AsciiFrame).h ∧
    offX ⟨4, 4, []⟩ ⟨0, 0, 10, 10⟩ = 3 :=
  ⟨by decide,
   (C6_render_geometry ⟨some ⟨1, 1, [⟨'@', 255, 0, 0⟩]⟩, 1⟩
      ⟨1, 1, [⟨'@', 255, 0, 0⟩]⟩
      ⟨⟨0, 0, 10, 10⟩, fun _ _ => ⟨' ', RColor.reset, RColor.reset⟩⟩
      ⟨0, 0, 10, 10⟩ rfl (by decide)).2.2.2.2.1⟩

/-- C7 (confirmed): with no frame ever received, rendering returns the buffer
unchanged; otherwise every cell outside the centered intersection is left
untouched, and everywhere (inside included) the background color — standing
for every attribute other than the character and foreground — and the buffer
area are preserved. -/
theorem C7_render_untouched (vb : VideoBackground) (buf : Buffer)
    (area : Rect) :
    (vb.latest = none → render_background vb buf area = buf) ∧
    (∀ af, vb.latest = some af → ∀ px py,
      ¬(offX af area ≤ px ∧ px < offX af area + contentW af area ∧
        offY af area ≤ py ∧ py < offY af area + contentH af area) →
      (render_background vb buf area).cellAt px py = buf.cellAt px py) ∧
    (∀ px py, ((render_background vb buf area).cellAt px py).bg =
      (buf.cellAt px py).bg) ∧
    (render_background vb buf area).area = buf.area := by
  refine ⟨render_background_none vb buf area,
    fun af hl px py hout => render_cellAt_out vb buf area af px py hl hout,
    ?_, ?_⟩
  · intro px py
    cases hl : vb.latest with
    | none => rw [render_background_none vb buf area hl]
    | some af =>
      rw [render_background_some vb buf area af hl]
      exact foldl_bg_preserved _
        (fun b y px' py' => foldl_bg_preserved _
          (fun b' x' px'' py'' =>
            drawStep_bg vb.opacity af (offX af area) (offY af area) y b' x'
              px'' py'') _ b px' py') _ buf px py
  · cases hl : vb.latest with
    | none => rw [render_background_none vb buf area hl]
    | some af =>
      rw [render_background_some vb buf area af hl]
      exact foldl_area_preserved _
        (fun b y => foldl_area_preserved _
          (fun b' x' => drawStep_area vb.opacity af (offX af area)
            (offY af area) y b' x') _ b) _ buf

/-- Witness for C7_render_untouched: the no-frame case on a concrete buffer. -/
theorem C7_witness :
    render_background ⟨none, 1⟩
      ⟨⟨0, 0, 3, 3⟩, fun _ _ => ⟨' ', RColor.reset, RColor.reset⟩⟩ ⟨0, 0, 3, 3⟩ =
      ⟨⟨0, 0, 3, 3⟩, fun _ _ => ⟨' ', RColor.reset, RColor.reset⟩⟩ :=
  (C7_render_untouched ⟨none, 1⟩
    ⟨⟨0, 0, 3, 3⟩, fun _ _ => ⟨' ', RColor.reset, RColor.reset⟩⟩
    ⟨0, 0, 3, 3⟩).1 rfl

/-- C9 (confirmed): each drawn cell's foreground is the stored color with
every channel scaled by the opacity and truncated: `(r*o, g*o, b*o)` with
`⌊·⌋`; opacity 1 reproduces the channel, opacity 0 gives 0, and channel 255
at opacity 1/2 gives 127. The f32 products are modelled as exact rational
arithmetic. -/
theorem C9_opacity_dimming (vb : VideoBackground) (af : AsciiFrame)
    (buf : Buffer) (area : Rect) (x y : Nat) (hl : vb.latest = some af)
    (hx : x < contentW af area) (hy : y < contentH af area)
    (hi : y * af.w + x < af.cells.length)
    (hin : buf.area.containsB (offX af area + x) (offY af area + y) = true) :
    ((render_background vb buf area).cellAt (offX af area + x)
        (offY af area + y)).fg =
      RColor.rgb
        (dimChannel vb.opacity (af.cells.getD (y * af.w + x) ⟨' ', 0, 0, 0⟩).r)
        (dimChannel vb.opacity (af.cells.getD (y * af.w + x) ⟨' ', 0, 0, 0⟩).g)
        (dimChannel vb.opacity (af.cells.getD (y * af.w + x) ⟨' ', 0, 0, 0⟩).b) ∧
    (∀ c : Nat, c ≤ 255 → dimChannel 1 c = c) ∧
    (∀ c : Nat, dimChannel 0 c = 0) ∧
    dimChannel (1/2) 255 = 127 ∧
    (∀ (o : ℚ) (c : Nat), 0 ≤ o → o ≤ 1 → c ≤ 255 →
      dimChannel o c = (⌊(c : ℚ) * o⌋).toNat) := by
  refine ⟨?_, ?_, ?_, ?_, ?_⟩
  · rw [render_cellAt_in vb buf area af x y hl hx hy hi hin]
    rfl
  · intro c hc
    unfold dimChannel f32_as_u8
    rw [mul_one, Int.floor_toNat, Nat.floor_natCast]
    exact min_eq_left hc
  · intro c
    unfold dimChannel f32_as_u8
    rw [mul_zero]
    simp
  · unfold dimChannel f32_as_u8
    have h255 : ((255 : Nat) : ℚ) * (1/2) = ((255 : ℕ) : ℚ) / ((2 : ℕ) : ℚ) := by
      norm_num
    rw [h255, Int.floor_toNat, Nat.floor_div_eq_div]
    decide
  · intro o c h0 h1 hc
    unfold dimChannel f32_as_u8
    have hle : (⌊(c : ℚ) * o⌋).toNat ≤ 255 := by
      have hmul : (c : ℚ) * o ≤ (c : ℚ) :=
        mul_le_of_le_one_right (by positivity) h1
      have hfl : ⌊(c : ℚ) * o⌋ ≤ ⌊(c : ℚ)⌋ := Int.floor_le_floor hmul
      have hfc : ⌊(c : ℚ)⌋ = (c : ℤ) := Int.floor_natCast c
      have := Int.toNat_le_toNat (hfc ▸ hfl)
      simpa using this.trans (by exact_mod_cast hc)
    exact min_eq_left hle

/-- Witness for C9_opacity_dimming, projecting the half-opacity instance on a
concrete one-cell frame. -/
theorem C9_witness : dimChannel (1/2) 255 = 127 :=
  (C9_opacity_dimming ⟨some ⟨1, 1, [⟨'@', 255, 255, 255⟩]⟩, 1/2⟩
    ⟨1, 1, [⟨'@', 255, 255, 255⟩]⟩
    ⟨⟨0, 0, 1, 1⟩, fun _ _ => ⟨' ', RColor.reset, RColor.reset⟩⟩
    ⟨0, 0, 1, 1⟩ 0 0 rfl (by decide) (by decide) (by decide)
    (by decide)).2.2.2.1

/-! ## FramePipeline worker (video.rs 60-151)

The ffmpeg side is abstracted into a deterministic media environment: a path
opens to either nothing or a `MediaFile` describing the frames each pass of
the decode loop yields. Seeking back to zero and rebuilding the decoder
(video.rs 142-146) restores the same behavior, so every pass sees the same
frame lists. The bounded channel's consumer side is summarized by `alive`:
whether the receiving end still exists when the worker sends. -/

/-- Abstract behavior of an opened media file. -/
structure MediaFile where
  hasVideo : Bool
  streamFrames : List AsciiFrame
  flushFrames : List AsciiFrame
deriving DecidableEq

/-- The filesystem/ffmpeg environment: what opening a path yields. -/
structure MediaEnv where
  openInput : String → Option MediaFile

inductive MediaError
  | openFailed
  | noVideoStream
deriving DecidableEq

/-- Embeds `open_decoder` (video.rs 60-80): open the container, pick the best
video stream (failing when there is none), build the decoder. -/
def open_decoder (env : MediaEnv) (path : String) :
    Except MediaError MediaFile :=
  match env.openInput path with
  | none => Except.error MediaError.openFailed
  | some mf =>
    if mf.hasVideo then Except.ok mf else Except.error MediaError.noVideoStream

/-- Observable actions of the worker thread. -/
inductive WEvent
  | published (f : AsciiFrame)
  | publishFailed (f : AsciiFrame)
  | restarted
  | stopped
deriving DecidableEq

/-- Streaming-phase publishing (video.rs 118-131): each decoded frame is sent
into the queue; if the send fails (receiver destroyed) the worker returns at
once. The boolean is false exactly when the worker returned. -/
def sendPhase (alive : Bool) : List AsciiFrame → List WEvent × Bool
  | [] => ([], true)
  | f :: rest =>
    if alive then
      let r := sendPhase alive rest
      (WEvent.published f :: r.1, r.2)
    else ([WEvent.publishFailed f], false)

/-- Flush-phase publishing (video.rs 134-140): `let _ = tx.send(ascii)` — a
failed send is ignored and the flush continues. -/
def flushPhase (alive : Bool) (fs : List AsciiFrame) : List WEvent :=
  fs.map fun f => if alive then WEvent.published f else WEvent.publishFailed f

/-- One pass of the outer loop (video.rs 117-147): packet loop, decoder
flush, then seek back to the start and rebuild the decoder (`restarted`). -/
def runPass (alive : Bool) (mf : MediaFile) : List WEvent × Bool :=
  let s := sendPhase alive mf.streamFrames
  if s.2 then
    (s.1 ++ flushPhase alive mf.flushFrames ++ [WEvent.restarted], true)
  else (s.1 ++ [WEvent.stopped], false)

/-- The worker loop observed for `fuel` passes (the source loop is infinite;
every finite prefix of its behavior is some `fuel`). -/
def workerRun (alive : Bool) (mf : MediaFile) : Nat → List WEvent
  | 0 => []
  | n + 1 =>
    let p := runPass alive mf
    if p.2 then p.1 ++ workerRun alive mf n else p.1

/-- The body of the thread spawned by `spawn_decode` (video.rs 104-148):
`open_decoder` runs here, inside the thread; on failure the thread exits
with the error having published nothing. -/
def threadBody (env : MediaEnv) (path : String) (alive : Bool) (fuel : Nat) :
    Except MediaError (List WEvent) :=
  match open_decoder env path with
  | Except.error e => Except.error e
  | Except.ok mf => Except.ok (workerRun alive mf fuel)

/-- Embeds the synchronous part of `spawn_decode` (video.rs 101-151): create
the bounded channel, spawn the thread, and return the receiver — it returns
`Ok(rx)` unconditionally; no media open happens on this path. -/
def spawn_decode (path : String) (_tw _th : Nat) : Except MediaError String :=
  Except.ok path

/-- `ff::init()` (video.rs 161), modelled as succeeding. -/
def ffInit : Except MediaError Unit := Except.ok ()

/-- Embeds `VideoBackground::new` (video.rs 160-171): `ff::init`, then
`spawn_decode`, then the compositor state with the opacity clamped into
`[0, 1]`. The environment is available but never consulted here — the open
happens in the worker thread. -/
def VideoBackground.new (_env : MediaEnv) (path : String) (w h : Nat)
    (opacity : ℚ) : Except MediaError VideoBackground :=
  match ffInit with
  | Except.error e => Except.error e
  | Except.ok _ =>
    match spawn_decode path w h with
    | Except.error e => Except.error e
    | Except.ok _ =>
      Except.ok { latest := none, opacity := min (max opacity 0) 1 }

def isOkE {ε α : Type} : Except ε α → Bool
  | Except.ok _ => true
  | Except.error _ => false

/-- Environment in which no path opens. -/
def emptyEnv : MediaEnv := ⟨fun _ => none⟩

/-- C1 counterexample: for a path that cannot be opened, `open_decoder`
fails, yet `VideoBackground::new` still returns `Ok` — the failure is not
surfaced synchronously to the caller. -/
theorem C1_counterexample :
    isOkE (open_decoder emptyEnv "missing.mp4") = false ∧
    isOkE (VideoBackground.new emptyEnv "missing.mp4" 80 24 1) = true :=
  ⟨rfl, rfl⟩

/-- C1 (amended): construction always succeeds, whatever the path; when the
file cannot be opened or has no video stream, the error occurs
asynchronously in the spawned worker thread, which exits with that error
having published nothing. -/
theorem C1_new_always_ok (env : MediaEnv) (path : String) (w h : Nat) (o : ℚ)
    (alive : Bool) (fuel : Nat) (e : MediaError)
    (hbad : open_decoder env path = Except.error e) :
    isOkE (VideoBackground.new env path w h o) = true ∧
    threadBody env path alive fuel = Except.error e := by
  refine ⟨rfl, ?_⟩
  unfold threadBody
  rw [hbad]

/-- Witness for C1_new_always_ok on the unopenable path. -/
theorem C1_witness :
    open_decoder emptyEnv "missing.mp4" = Except.error MediaError.openFailed ∧
    threadBody emptyEnv "missing.mp4" true 3 =
      Except.error MediaError.openFailed :=
  ⟨rfl,
   (C1_new_always_ok emptyEnv "missing.mp4" 80 24 1 true 3
      MediaError.openFailed rfl).2⟩

/-- A concrete frame used in the worker traces. -/
def f0 : AsciiFrame := ⟨1, 1, [⟨'@', 255, 255, 255⟩]⟩

/-- Modelled from the spec: the claimed behavior that every failed publish is
immediately followed by worker exit — the failure event is followed by
`stopped` and nothing further. -/
def stopsRightAfterFailure (evs : List WEvent) : Prop :=
  ∀ i f, evs[i]? = some (WEvent.publishFailed f) →
    evs[i + 1]? = some WEvent.stopped ∧ evs.length = i + 2

/-- C2 counterexample: a source whose only frames surface during the decoder
flush. With the receiver gone, the flush-phase send fails, but the worker
ignores the failure, restarts, and keeps decoding — it does not exit after
the failed publish. -/
theorem C2_counterexample :
    workerRun false ⟨true, [], [f0]⟩ 2 =
      [WEvent.publishFailed f0, WEvent.restarted,
       WEvent.publishFailed f0, WEvent.restarted] ∧
    ¬ stopsRightAfterFailure (workerRun false ⟨true, [], [f0]⟩ 2) := by
  refine ⟨rfl, ?_⟩
  intro hcl
  have h := (hcl 0 f0 rfl).1
  exact absurd h (by decide)

lemma sendPhase_alive (l : List AsciiFrame) :
    sendPhase true l = (l.map WEvent.published, true) := by
  induction l with
  | nil => rfl
  | cons f rest ih => simp [sendPhase, ih]

/-- C2 (amended): a publish failure in the packet-streaming phase makes the
worker exit immediately — the pass trace is exactly
`[publishFailed f, stopped]`, with no further publish, flush or restart —
and `stopped` occurs only with a destroyed receiver: while the receiver is
alive no run ever reaches it. A publish failure during the decoder flush,
however, is ignored (video.rs 139) and the worker continues. -/
theorem C2_stop_on_stream_publish_failure (mf : MediaFile) (fuel : Nat)
    (f : AsciiFrame) (rest : List AsciiFrame) :
    (mf.streamFrames = f :: rest →
      workerRun false mf (fuel + 1) =
        [WEvent.publishFailed f, WEvent.stopped]) ∧
    ∀ n, WEvent.stopped ∉ workerRun true mf n := by
  constructor
  · intro h
    simp [workerRun, runPass, sendPhase, h]
  · intro n
    induction n with
    | zero => simp [workerRun]
    | succ m ih =>
      simp only [workerRun, runPass, sendPhase_alive, flushPhase]
      simp [ih]

/-- Witness for C2_stop_on_stream_publish_failure on a one-frame source with
a dead receiver. -/
theorem C2_witness :
    (⟨true, [f0], []⟩ : MediaFile).streamFrames = f0 :: [] ∧
    workerRun false ⟨true, [f0], []⟩ (0 + 1) =
      [WEvent.publishFailed f0, WEvent.stopped] :=
  ⟨rfl, (C2_stop_on_stream_publish_failure ⟨true, [f0], []⟩ 0 f0 []).1 rfl⟩

/-- Frames published through the channel, in order. -/
def publishedFrames (evs : List WEvent) : List AsciiFrame :=
  evs.filterMap fun e =>
    match e with
    | WEvent.published f => some f
    | _ => none

lemma flushPhase_alive (l : List AsciiFrame) :
    flushPhase true l = l.map WEvent.published := by
  simp [flushPhase]

lemma publishedFrames_append (l1 l2 : List WEvent) :
    publishedFrames (l1 ++ l2) = publishedFrames l1 ++ publishedFrames l2 := by
  simp [publishedFrames]

lemma publishedFrames_map (l : List AsciiFrame) :
    publishedFrames (l.map WEvent.published) = l := by
  unfold publishedFrames
  rw [List.filterMap_map]
  show List.filterMap some l = l
  exact List.filterMap_some l

def fA : AsciiFrame := ⟨1, 1, [⟨'o', 255, 0, 0⟩]⟩
def fB : AsciiFrame := ⟨1, 1, [⟨'o', 0, 255, 0⟩]⟩
def fC : AsciiFrame := ⟨1, 1, [⟨'o', 0, 0, 255⟩]⟩

/-- C10 (confirmed): with a live consumer each pass publishes the decoded
frames then the flushed frames, seeks back to the start, rebuilds the
decoder and repeats — the published sequence over any number of passes is
that pass repeated. For a synthetic three-frame source the fourth published
frame is identical to the first. -/
theorem C10_looping (mf : MediaFile) (fuel : Nat) :
    publishedFrames (workerRun true mf fuel) =
      (List.replicate fuel (mf.streamFrames ++ mf.flushFrames)).flatten ∧
    (publishedFrames (workerRun true ⟨true, [fA, fB, fC], []⟩ 2))[3]? =
      some fA ∧
    (publishedFrames (workerRun true ⟨true, [fA, fB, fC], []⟩ 2))[0]? =
      some fA := by
  refine ⟨?_, by decide, by decide⟩
  induction fuel with
  | zero => rfl
  | succ n ih =>
    have hstep : workerRun true mf (n + 1) =
        (mf.streamFrames.map WEvent.published ++
          flushPhase true mf.flushFrames ++ [WEvent.restarted]) ++
          workerRun true mf n := by
      simp [workerRun, runPass, sendPhase_alive]
    rw [hstep, publishedFrames_append, publishedFrames_append,
      publishedFrames_append, publishedFrames_map, flushPhase_alive,
      publishedFrames_map, ih, List.replicate_succ, List.flatten_cons]
    simp [publishedFrames]

end VideoRs
